import Mathlib

/-!
Verification of the Library Store of the aimusicapp repository.

The definitions below are a shallow embedding of the store implemented in
src/hooks/useMusicLibrary.ts and of the archive-lookup helpers of the
MusicSidebar component.  JavaScript numbers that the code only ever holds
as integers are modelled as Int; the one place the code divides
(Math.round((volume / total) * 100)) is modelled with exact rational
arithmetic.  localStorage under the single key "music-analyzer-library"
is modelled as an optional list of persisted entries (None = key absent).
Timers are abstracted away: the expiry of a pending delete / pending clear
is an explicit operation (finalizeRemoveMusicUrl / finalizeClearLibrary),
and a Map value stores only the retained item.
-/

/-- One extracted file held in memory: filename plus the object URL
created for its blob (the URL is an opaque string here). -/
structure ExtractedFile where
  filename : String
  blobUrl : String
deriving Repr, DecidableEq

/-- MusicLayer from useMusicLibrary.ts: id, name, icon, volume. -/
structure MusicLayer where
  id : String
  name : String
  icon : String
  volume : Int
deriving Repr, DecidableEq

/-- MusicUrl from useMusicLibrary.ts.  Optional fields of the interface are
Option-valued (None = property absent).  addedAt is a millisecond
timestamp. -/
structure MusicUrl where
  id : String
  url : String
  title : String
  thumbnail : String
  addedAt : Nat
  layers : List MusicLayer
  isLocalFile : Option Bool
  fileDataUrl : Option (Option String)
  files : Option (List ExtractedFile)
  cacheKey : Option String
  processed : Option Bool
deriving Repr, DecidableEq

/-- A file record as serialized to localStorage.  The sanitize step of the
source maps each file to an object holding only filename, so blobUrl is
absent (None) in everything the store writes. -/
structure PersistedFile where
  filename : String
  blobUrl : Option String
deriving Repr, DecidableEq

/-- An entry as serialized to localStorage: same scalar fields, files
reduced to filename-only records. -/
structure PersistedEntry where
  id : String
  url : String
  title : String
  thumbnail : String
  addedAt : Nat
  layers : List MusicLayer
  isLocalFile : Option Bool
  fileDataUrl : Option (Option String)
  files : Option (List PersistedFile)
  cacheKey : Option String
  processed : Option Bool
deriving Repr, DecidableEq

/-- The sanitize mapping applied before every localStorage write:
{ ...u, files: u.files ? u.files.map(f => ({ filename: f.filename })) : undefined }. -/
def sanitizeEntry (u : MusicUrl) : PersistedEntry :=
  { id := u.id
    url := u.url
    title := u.title
    thumbnail := u.thumbnail
    addedAt := u.addedAt
    layers := u.layers
    isLocalFile := u.isLocalFile
    fileDataUrl := u.fileDataUrl
    files := u.files.map (fun fs => fs.map (fun f => ⟨f.filename, none⟩))
    cacheKey := u.cacheKey
    processed := u.processed }

/-- Sanitizes a whole list, as every setItem call in the source does. -/
def sanitizeList (l : List MusicUrl) : List PersistedEntry :=
  l.map sanitizeEntry

/-- The mutable state of the hook: the visible list (urls), the value of
localStorage under STORAGE_KEY (None = key removed), the pendingDeletes
map (insertion-ordered association list, timers abstracted), the
pendingClear buffer and the isLoading flag. -/
structure LibState where
  urls : List MusicUrl
  storage : Option (List PersistedEntry)
  pendingDeletes : List (String × MusicUrl)
  pendingClear : Option (List MusicUrl)
  isLoading : Bool
deriving Repr, DecidableEq

/-- The state on first mount with nothing stored. -/
def initState : LibState :=
  { urls := [], storage := none, pendingDeletes := [], pendingClear := none
    isLoading := false }

/-- JS Map.get: first (unique) binding for the key. -/
def mapGet (m : List (String × MusicUrl)) (k : String) : Option MusicUrl :=
  (m.find? (fun p => p.1 == k)).map (fun p => p.2)

/-- JS Map.set: replace the binding in place when the key exists,
otherwise append. -/
def mapSet (m : List (String × MusicUrl)) (k : String) (v : MusicUrl) :
    List (String × MusicUrl) :=
  if m.any (fun p => p.1 == k) then
    m.map (fun p => if p.1 == k then (k, v) else p)
  else
    m ++ [(k, v)]

/-- JS Map.delete. -/
def mapDelete (m : List (String × MusicUrl)) (k : String) :
    List (String × MusicUrl) :=
  m.filter (fun p => !(p.1 == k))

/-- The save-on-change effect: whenever urls changes and is non-empty the
sanitized list is written to localStorage (useEffect on [urls]). -/
def saveEffect (s : LibState) : LibState :=
  if s.urls.length > 0 then { s with storage := some (sanitizeList s.urls) }
  else s

/-- removeMusicUrl: filter the list, persist the sanitized remainder or
remove the key when empty (blob revocation has no observable effect on
this state). -/
def removeMusicUrl (i : String) (s : LibState) : LibState :=
  let remaining := s.urls.filter (fun u => !(u.id == i))
  let st := if remaining.length > 0 then some (sanitizeList remaining) else none
  saveEffect { s with urls := remaining, storage := st }

/-- scheduleRemoveMusicUrl: if the id is not found, return with no effect;
otherwise drop it from the visible list, persist (or remove the key) and
put the retained item into pendingDeletes under its id. -/
def scheduleRemoveMusicUrl (i : String) (s : LibState) : LibState :=
  match s.urls.find? (fun u => u.id == i) with
  | none => s
  | some found =>
    let remaining := s.urls.filter (fun u => !(u.id == i))
    let st := if remaining.length > 0 then some (sanitizeList remaining) else none
    saveEffect { s with urls := remaining, storage := st
                        pendingDeletes := mapSet s.pendingDeletes i found }

/-- finalizeRemoveMusicUrl: the expiry of the grace window; drops the
pending entry (and revokes its blob URLs, not observable here). -/
def finalizeRemoveMusicUrl (i : String) (s : LibState) : LibState :=
  match mapGet s.pendingDeletes i with
  | none => s
  | some _ => { s with pendingDeletes := mapDelete s.pendingDeletes i }

/-- undoRemoveMusicUrl: silently return when the pending buffer has no
binding for the id; otherwise cancel it, reinsert the item at the head
and persist the sanitized new list. -/
def undoRemoveMusicUrl (i : String) (s : LibState) : LibState :=
  match mapGet s.pendingDeletes i with
  | none => s
  | some item =>
    let next := item :: s.urls
    saveEffect { s with urls := next, storage := some (sanitizeList next)
                        pendingDeletes := mapDelete s.pendingDeletes i }

/-- updateMusicTitle: in-place rename; persistence happens through the
save-on-change effect. -/
def updateMusicTitle (i : String) (t : String) (s : LibState) : LibState :=
  saveEffect
    { s with urls := s.urls.map (fun u => if u.id == i then { u with title := t } else u) }

/-- clearLibrary (scheduleClearLibrary): capture the whole list into the
pendingClear buffer, empty the visible list and remove the storage key. -/
def clearLibrary (s : LibState) : LibState :=
  saveEffect { s with urls := [], storage := none, pendingClear := some s.urls }

/-- finalizeClearLibrary: expiry of the pending clear (revokes blob URLs,
not observable here) and drops the buffer. -/
def finalizeClearLibrary (s : LibState) : LibState :=
  { s with pendingClear := none }

/-- undoClearLibrary: return when no clear is pending; otherwise restore
the captured items as the whole visible list and persist them. -/
def undoClearLibrary (s : LibState) : LibState :=
  match s.pendingClear with
  | none => s
  | some items =>
    saveEffect { s with urls := items, storage := some (sanitizeList items)
                        pendingClear := none }

/-!  The submission operations.  Network responses, JSZip parse results and
the Math.random draws are inputs of the embedding (an environment record per
call); the code itself is translated below them. -/

/-- What the failure-detail extraction of a non-2xx response sees:
the body parsed as JSON (chain = the first truthy of json.detail,
json.message, json.error; strf = JSON.stringify(json)), or the body read
as text, or neither readable. -/
inductive BodyView where
  | jsonBody (chain : Option String) (strf : String)
  | textBody (t : String)
  | unreadable
deriving Repr, DecidableEq

/-- Outcome of a fetch: 2xx with a value, a non-2xx response with its
status and body, or a rejected promise (transport failure). -/
inductive FetchOutcome (α : Type) where
  | ok (value : α)
  | httpErr (status : Nat) (body : BodyView)
  | netErr (msg : String)
deriving Repr, DecidableEq

/-- detail extraction for a non-2xx response:
detail starts as "HTTP status"; a parsed JSON body replaces it with
json.detail || json.message || json.error || JSON.stringify(json); a text
body replaces it when the text is truthy. -/
def errorDetail (status : Nat) (b : BodyView) : String :=
  let base := "HTTP " ++ toString status
  match b with
  | .jsonBody chain strf => match chain with | some c => c | none => strf
  | .textBody t => if t = "" then base else t
  | .unreadable => base

/-- The helpful-message decoration for status 500 and 404 (the endpoint
name differs between addMusicUrl and addAudioFile). -/
def decorateDetail (endpoint : String) (status : Nat) (detail : String) : String :=
  if status = 500 then
    "Backend server error: " ++ detail ++
      "\n\nMake sure your backend server is running and properly configured. Check backend logs for details."
  else if status = 404 then
    "Endpoint not found: " ++ endpoint ++
      "\n\nEnsure your backend server implements the " ++ endpoint ++ " endpoint."
  else detail

/-- One member of the returned ZIP archive: its path and its bytes
(opaque string). -/
structure ZipEntry where
  name : String
  data : String
deriving Repr, DecidableEq

/-- The object URL created for an extracted member (opaque, derived here
from the filename). -/
def mkBlobUrl (filename : String) : String :=
  "blob:" ++ filename

/-- str.endsWith(suffix) (expressed over the character list so that it
evaluates by kernel reduction). -/
def jsEndsWith (s suffix : String) : Bool :=
  suffix.toList.isSuffixOf s.toList

/-- The extraction loop shared by addMusicUrl and addAudioFile: every key
of zip.files whose name does not end with "/" is materialized as a blob
and pushed as { filename, blobUrl }; directory-suffixed names are
skipped. -/
def extractFiles (entries : List ZipEntry) : List ExtractedFile :=
  (entries.filter (fun e => !(jsEndsWith e.name "/"))).map
    (fun e => ⟨e.name, mkBlobUrl e.name⟩)

/-- The fixed pool getMockTitle draws from. -/
def mockTitles : List String :=
  ["Amazing Song - Artist Name", "Epic Music Video - Band Name",
   "Beautiful Melody - Composer", "Hit Single - Popular Artist",
   "Indie Track - Emerging Artist"]

/-- getMockTitle: a random pick from the pool; the Math.random draw is the
index input. -/
def getMockTitle (idx : Fin 5) : String :=
  mockTitles.get ⟨idx, by cases idx with | mk v h => simpa [mockTitles] using h⟩

/-- Characters that terminate the capture group of the video-id regular
expression ([^&\n?#]+). -/
def isIdStopChar (c : Char) : Bool :=
  c = '&' || c = '\n' || c = '?' || c = '#'

/-- Tries one alternative of the regular expression at the current
position: the prefix must match and the capture that follows must be
non-empty. -/
def tryVideoIdAt (pre : List Char) (cs : List Char) : Option (List Char) :=
  if pre.isPrefixOf cs then
    let cap := (cs.drop pre.length).takeWhile (fun c => !(isIdStopChar c))
    if cap.isEmpty then none else some cap
  else none

/-- Scans the url left to right for the first position where
youtube.com/watch?v= or youtu.be/ is followed by a non-empty id. -/
def scanVideoId : List Char → Option (List Char)
  | [] => none
  | c :: rest =>
    match tryVideoIdAt ("youtube.com/watch?v=".toList) (c :: rest) with
    | some cap => some cap
    | none =>
      match tryVideoIdAt ("youtu.be/".toList) (c :: rest) with
      | some cap => some cap
      | none => scanVideoId rest

/-- extractVideoId: first match of the regular expression, with the
hard-coded fallback id when nothing matches. -/
def extractVideoId (url : String) : String :=
  match scanVideoId url.toList with
  | some cap => String.mk cap
  | none => "dQw4w9WgXcQ"

/-- JS truthiness for the header strings the code tests: null or "" is
falsy. -/
def truthyString (h : Option String) : Option String :=
  match h with
  | none => none
  | some t => if t = "" then none else some t

/-- l.volume || 0 on a number. -/
def jsOrZero (x : Int) : Int :=
  if x = 0 then 0 else x

/-- Math.round: nearest integer, halves toward positive infinity. -/
def jsRound (x : Rat) : Int :=
  ⌊x + 1 / 2⌋

/-- layers.reduce((s, l) => s + (l.volume || 0), 0). -/
def sumVolumes (ls : List MusicLayer) : Int :=
  ls.foldl (fun acc l => acc + jsOrZero l.volume) 0

/-- normalizeLayers from useMusicLibrary.ts: total is the volume sum
(|| 1 when it is 0), every volume becomes
Math.round((volume / total) * 100). -/
def normalizeLayers (ls : List MusicLayer) : List MusicLayer :=
  let total : Int := let t := sumVolumes ls; if t = 0 then 1 else t
  ls.map (fun l =>
    { l with volume := jsRound (((jsOrZero l.volume : Rat) / (total : Rat)) * 100) })

/-- Environment of one addMusicUrl call: the clock, the POST /youtube
outcome (X-Video-Title header and body blob), the JSZip.loadAsync outcome
on that blob, the best-effort POST /youtube/extracted outcome (None when
the request failed or was non-2xx, otherwise its optional title header),
the getMockTitle draw and the generateMockLayers draw. -/
structure LinkEnv where
  now : Nat
  resp : FetchOutcome (Option String × String)
  zipParse : Except String (List ZipEntry)
  titleLookup : Option (Option String)
  mockTitleIdx : Fin 5
  rawLayers : List MusicLayer

/-- addMusicUrl: POST the url, fail on a non-2xx response or transport
error with the extracted detail, unzip (propagating a parse failure),
extract the non-directory members, resolve the title through the header /
secondary-lookup / mock fallback chain, build the entry and prepend it. -/
def addMusicUrl (url : String) (env : LinkEnv) (s : LibState) :
    Except String MusicUrl × LibState :=
  let s0 := { s with isLoading := true }
  match env.resp with
  | .netErr m => (.error m, { s0 with isLoading := false })
  | .httpErr status body =>
    (.error (decorateDetail "/youtube" status (errorDetail status body)),
     { s0 with isLoading := false })
  | .ok (titleHeader, _blob) =>
    match env.zipParse with
    | .error m => (.error m, { s0 with isLoading := false })
    | .ok entries =>
      let files := extractFiles entries
      let headerTitle : Option String := (truthyString titleHeader).map String.trim
      let finalTitle : Option String :=
        match headerTitle with
        | some t => some t
        | none =>
          match env.titleLookup with
          | some h2 => (truthyString h2).map String.trim
          | none => none
      let videoId := extractVideoId url
      let title :=
        match truthyString finalTitle with
        | some t => t
        | none => getMockTitle env.mockTitleIdx
      let newMusicUrl : MusicUrl :=
        { id := toString env.now
          url := url
          title := title
          thumbnail := "https://img.youtube.com/vi/" ++ videoId ++ "/maxresdefault.jpg"
          addedAt := env.now
          layers := normalizeLayers env.rawLayers
          isLocalFile := none
          fileDataUrl := none
          files := some files
          cacheKey := none
          processed := some true }
      (.ok newMusicUrl,
       saveEffect { s0 with urls := newMusicUrl :: s0.urls, isLoading := false })

/-- Environment of one addAudioFile call: the clock, the uploaded file
name, the POST /upload outcome (X-Cache-Key header and body blob), the
JSZip.loadAsync outcome on that blob, and the generateMockLayers draw. -/
structure FileEnv where
  now : Nat
  fileName : String
  resp : FetchOutcome (Option String × String)
  zipParse : Except String (List ZipEntry)
  rawLayers : List MusicLayer

/-- addAudioFile: upload the file, fail on a non-2xx response or
transport error, unzip, extract the non-directory members, build the
local-file entry (title = file name, cacheKey from the header) and
prepend it. -/
def addAudioFile (env : FileEnv) (s : LibState) :
    Except String MusicUrl × LibState :=
  let s0 := { s with isLoading := true }
  match env.resp with
  | .netErr m => (.error m, { s0 with isLoading := false })
  | .httpErr status body =>
    (.error (decorateDetail "/upload" status (errorDetail status body)),
     { s0 with isLoading := false })
  | .ok (cacheHeader, _blob) =>
    match env.zipParse with
    | .error m => (.error m, { s0 with isLoading := false })
    | .ok entries =>
      let files := extractFiles entries
      let newMusicUrl : MusicUrl :=
        { id := toString env.now
          url := "file:" ++ env.fileName
          title := env.fileName
          thumbnail := ""
          addedAt := env.now
          layers := normalizeLayers env.rawLayers
          isLocalFile := some true
          fileDataUrl := some none
          files := some files
          cacheKey := truthyString cacheHeader
          processed := some true }
      (.ok newMusicUrl,
       saveEffect { s0 with urls := newMusicUrl :: s0.urls, isLoading := false })

/-!  The archive lookup of the MusicSidebar component (findEntryInZip and
the zip path of handlePlayToggle / handleDownload). -/

/-- zip.files[key]: property access on the archive listing (keys are the
member names, unique within an archive). -/
def lookupExact (files : List ZipEntry) (k : String) : Option ZipEntry :=
  files.find? (fun e => e.name == k)

/-- findEntryInZip: exact key lookup of the requested filename first;
when that misses, the first key that ends with the requested filename;
None when both miss.  Returns the member's bytes. -/
def findEntryInZip (files : List ZipEntry) (filename : String) : Option String :=
  match lookupExact files filename with
  | some e => some e.data
  | none =>
    match (files.map ZipEntry.name).find? (fun k => jsEndsWith k filename) with
    | some found => (lookupExact files found).map ZipEntry.data
    | none => none

/-- The zip branch of handlePlayToggle once the archive bytes are parsed:
a missing member surfaces the not-found error. -/
def resolveFileForPlayback (files : List ZipEntry) (filename : String) :
    Except String String :=
  match findEntryInZip files filename with
  | some d => .ok d
  | none => .error "File not found in ZIP"

/-- handlePlayToggle viewed from the Library Store: the component resolves
the file (possibly failing) but invokes none of the store mutators, so
the store state passes through untouched. -/
def handlePlayZipStep (s : LibState) (files : List ZipEntry) (filename : String) :
    Except String String × LibState :=
  (resolveFileForPlayback files filename, s)

/-!  Operation alphabet of the store, for the whole-trace invariants. -/

/-- One public store operation (the finalize operations are the timer
expirations of the two-phase deletes). -/
inductive Op where
  | addLink (url : String) (env : LinkEnv)
  | addFile (env : FileEnv)
  | remove (i : String)
  | schedRemove (i : String)
  | finalizeRemove (i : String)
  | undoRemove (i : String)
  | updateTitle (i : String) (t : String)
  | schedClear
  | finalizeClear
  | undoClear

/-- The state transformer of one operation. -/
def step (s : LibState) : Op → LibState
  | .addLink url env => (addMusicUrl url env s).2
  | .addFile env => (addAudioFile env s).2
  | .remove i => removeMusicUrl i s
  | .schedRemove i => scheduleRemoveMusicUrl i s
  | .finalizeRemove i => finalizeRemoveMusicUrl i s
  | .undoRemove i => undoRemoveMusicUrl i s
  | .updateTitle i t => updateMusicTitle i t s
  | .schedClear => clearLibrary s
  | .finalizeClear => finalizeClearLibrary s
  | .undoClear => undoClearLibrary s

/-- Runs a sequence of operations. -/
def run (s : LibState) (ops : List Op) : LibState :=
  ops.foldl step s

/-- True when an addMusicUrl call fails at one of its three stages:
non-2xx response, transport error, or archive-extraction error. -/
def linkEnvFails (env : LinkEnv) : Bool :=
  match env.resp with
  | .ok _ => match env.zipParse with | .ok _ => false | .error _ => true
  | .httpErr _ _ => true
  | .netErr _ => true

/-- True when an addAudioFile call fails at one of its three stages. -/
def fileEnvFails (env : FileEnv) : Bool :=
  match env.resp with
  | .ok _ => match env.zipParse with | .ok _ => false | .error _ => true
  | .httpErr _ _ => true
  | .netErr _ => true

/-- A concrete failing environment for addMusicUrl: the backend answered
502 with the body text "boom". -/
def linkFailEnv : LinkEnv :=
  { now := 0
    resp := .httpErr 502 (.textBody "boom")
    zipParse := .ok []
    titleLookup := none
    mockTitleIdx := ⟨0, by decide⟩
    rawLayers := [] }

/-- Two small concrete entries used in the concrete instantiations. -/
def entA : MusicUrl :=
  { id := "a", url := "urlA", title := "A", thumbnail := "", addedAt := 1
    layers := [], isLocalFile := none, fileDataUrl := none, files := none
    cacheKey := none, processed := none }

def entB : MusicUrl :=
  { id := "b", url := "urlB", title := "B", thumbnail := "", addedAt := 2
    layers := [], isLocalFile := none, fileDataUrl := none, files := none
    cacheKey := none, processed := none }

/-- A consistent two-entry state (storage holds the sanitized list), entB
not at the head. -/
def stateAB : LibState :=
  { urls := [entA, entB], storage := some (sanitizeList [entA, entB])
    pendingDeletes := [], pendingClear := none, isLoading := false }

/-- A consistent one-entry state. -/
def stateA : LibState :=
  { urls := [entA], storage := some (sanitizeList [entA])
    pendingDeletes := [], pendingClear := none, isLoading := false }

/-- The C4 invariant on a storage value: every persisted file record
holds only a filename — its blobUrl property is absent. -/
def SanitizedStorage (o : Option (List PersistedEntry)) : Prop :=
  ∀ l, o = some l → ∀ e ∈ l, ∀ fs, e.files = some fs → ∀ f ∈ fs, f.blobUrl = none

/-- The items retained by a pending clear (empty when none is pending). -/
def pendingClearItems (s : LibState) : List MusicUrl :=
  s.pendingClear.getD []

/-- Every id the store is holding: the visible list, the items parked in
pendingDeletes, and the items parked in pendingClear. -/
def allIds (s : LibState) : List String :=
  s.urls.map MusicUrl.id ++ s.pendingDeletes.map (fun p => p.2.id)
    ++ (pendingClearItems s).map MusicUrl.id

/-- Every pendingDeletes binding is keyed by its item's id (the code
always calls pendingDeletes.set(id, item) with item.id = id). -/
def KeysMatch (s : LibState) : Prop :=
  ∀ p ∈ s.pendingDeletes, p.1 = p.2.id

/-- The id-uniqueness invariant over the whole store. -/
def IdInv (s : LibState) : Prop :=
  KeysMatch s ∧ (allIds s).Nodup

/-- A fresh-clock side condition for one operation: a submission must be
stamped with a millisecond timestamp whose string is not an id the store
already holds.  Non-submission operations need nothing. -/
def freshOp (s : LibState) : Op → Bool
  | .addLink _ env => !((allIds s).contains (toString env.now))
  | .addFile env => !((allIds s).contains (toString env.now))
  | _ => true

/-- The fresh-clock side condition along a run. -/
def freshRun : LibState → List Op → Bool
  | _, [] => true
  | s, op :: rest => freshOp s op && freshRun (step s op) rest

/-- A successful addMusicUrl environment stamped at millisecond 0. -/
def envAdd0 : LinkEnv :=
  { now := 0
    resp := .ok (none, "zipbytes")
    zipParse := .ok [⟨"a.wav", "bytes"⟩]
    titleLookup := none
    mockTitleIdx := ⟨0, by decide⟩
    rawLayers := [] }

/-- The same environment stamped one millisecond later. -/
def envAdd1 : LinkEnv :=
  { now := 1
    resp := .ok (none, "zipbytes")
    zipParse := .ok [⟨"a.wav", "bytes"⟩]
    titleLookup := none
    mockTitleIdx := ⟨0, by decide⟩
    rawLayers := [] }

/-- The normalization formula as the spec words it (for comparison with
the code's normalizeLayers): normalized_i = round(100 * raw_i /
sum(raw)), with the sum treated as 1 when all raw volumes are 0. -/
def specNormalize (raw total : Int) : Int :=
  jsRound ((100 * (raw : Rat)) / (if total = 0 then (1 : Rat) else (total : Rat)))

/-- A concrete generateMockLayers draw: three layers with raw volumes
60, 80 and 100. -/
def demoLayers : List MusicLayer :=
  [⟨"bass", "Bass", "Volume2", 60⟩, ⟨"drums", "Percussion", "Drum", 80⟩,
   ⟨"vocals", "Vocals", "Mic", 100⟩]

/-!  Theorems. -/

section Claims

/-- C9: undoRemove(id) is a silent no-op — it does not modify the visible
list, persisted storage, or anything else in the store — whenever the
pending-deletion buffer holds no binding for id (grace window elapsed or
no scheduleRemove issued). -/
theorem undoRemove_noop_without_pending (s : LibState) (i : String)
    (h : mapGet s.pendingDeletes i = none) :
    undoRemoveMusicUrl i s = s := by
  unfold undoRemoveMusicUrl
  rw [h]

theorem undoRemove_noop_without_pending_witness :
    mapGet initState.pendingDeletes "42" = none ∧
      undoRemoveMusicUrl "42" initState = initState :=
  ⟨by decide, undoRemove_noop_without_pending initState "42" (by decide)⟩

/-- C10: scheduleRemove(id) for an id absent from the library list
returns without effect: the list, persisted storage and the
pending-deletion buffer are unchanged and no expiry entry is created. -/
theorem scheduleRemove_noop_without_entry (s : LibState) (i : String)
    (h : s.urls.find? (fun u => u.id == i) = none) :
    scheduleRemoveMusicUrl i s = s := by
  unfold scheduleRemoveMusicUrl
  rw [h]

theorem scheduleRemove_noop_without_entry_witness :
    initState.urls.find? (fun u => u.id == "42") = none ∧
      scheduleRemoveMusicUrl "42" initState = initState :=
  ⟨by decide, scheduleRemove_noop_without_entry initState "42" (by decide)⟩

/-- C3: scheduleClear() followed by undoClear() within the grace window
restores exactly the prior list (same entries, same fields, same order)
as the visible list, and writes that same list (sanitized, as every
persistence write is) back to persisted storage; the pending-delete
buffer is untouched. -/
theorem clear_then_undo_restores (s : LibState) :
    (undoClearLibrary (clearLibrary s)).urls = s.urls
    ∧ (undoClearLibrary (clearLibrary s)).storage = some (sanitizeList s.urls)
    ∧ (undoClearLibrary (clearLibrary s)).pendingClear = none
    ∧ (undoClearLibrary (clearLibrary s)).pendingDeletes = s.pendingDeletes := by
  unfold clearLibrary undoClearLibrary saveEffect
  cases hu : s.urls with
  | nil => simp
  | cons a t => simp

/-- Mapping the filename projection over the extraction loop commutes
with filtering the member names. -/
theorem extractFiles_filenames (entries : List ZipEntry) :
    (extractFiles entries).map ExtractedFile.filename
      = (entries.map ZipEntry.name).filter (fun n => !(jsEndsWith n "/")) := by
  induction entries with
  | nil => rfl
  | cons e t ih =>
    by_cases h : jsEndsWith e.name "/" = true <;>
      simp [extractFiles, h, List.filter_cons] at ih ⊢ <;> exact ih

/-- C6: archive extraction produces exactly one ExtractedFile for every
member whose name does not end with "/" and none for directory-suffixed
members: the extracted filenames are precisely the non-directory member
names, each exactly once (member names are unique within an archive). -/
theorem extraction_skips_directories (entries : List ZipEntry)
    (h : (entries.map ZipEntry.name).Nodup) :
    (extractFiles entries).map ExtractedFile.filename
      = (entries.map ZipEntry.name).filter (fun n => !(jsEndsWith n "/"))
    ∧ ((extractFiles entries).map ExtractedFile.filename).Nodup := by
  refine ⟨extractFiles_filenames entries, ?_⟩
  rw [extractFiles_filenames entries]
  exact h.filter _

theorem extraction_skips_directories_witness :
    ((([⟨"a/", ""⟩, ⟨"a/b.wav", "bytes"⟩] : List ZipEntry).map ZipEntry.name).Nodup
      ∧ (extractFiles [⟨"a/", ""⟩, ⟨"a/b.wav", "bytes"⟩]).map ExtractedFile.filename
          = ["a/b.wav"])
    ∧ ((extractFiles [⟨"a/", ""⟩, ⟨"a/b.wav", "bytes"⟩]).map ExtractedFile.filename
        = (([⟨"a/", ""⟩, ⟨"a/b.wav", "bytes"⟩] : List ZipEntry).map ZipEntry.name).filter
            (fun n => !(jsEndsWith n "/"))
        ∧ ((extractFiles [⟨"a/", ""⟩, ⟨"a/b.wav", "bytes"⟩]).map ExtractedFile.filename).Nodup) :=
  ⟨⟨by decide, by decide⟩,
   extraction_skips_directories [⟨"a/", ""⟩, ⟨"a/b.wav", "bytes"⟩] (by decide)⟩

/-- C8: the file-resolution lookup follows a two-step precedence — an
exact key match first; only when it misses, the first key ending with the
requested filename; when both miss the resolution yields the not-found
error and the library state passes through unchanged (the handler invokes
no store mutation). -/
theorem zip_lookup_precedence (files : List ZipEntry) (fn : String) :
    (∀ e, lookupExact files fn = some e → findEntryInZip files fn = some e.data)
    ∧ (lookupExact files fn = none →
        ∀ k, (files.map ZipEntry.name).find? (fun n => jsEndsWith n fn) = some k →
          findEntryInZip files fn = (lookupExact files k).map ZipEntry.data)
    ∧ (lookupExact files fn = none →
        (files.map ZipEntry.name).find? (fun n => jsEndsWith n fn) = none →
          findEntryInZip files fn = none
          ∧ resolveFileForPlayback files fn = Except.error "File not found in ZIP"
          ∧ ∀ s : LibState, (handlePlayZipStep s files fn).2 = s) := by
  refine ⟨?_, ?_, ?_⟩
  · intro e he
    unfold findEntryInZip
    rw [he]
  · intro hnone k hk
    unfold findEntryInZip
    rw [hnone, hk]
  · intro hnone hsuf
    have hfind : findEntryInZip files fn = none := by
      unfold findEntryInZip
      rw [hnone, hsuf]
    refine ⟨hfind, ?_, fun s => rfl⟩
    unfold resolveFileForPlayback
    rw [hfind]

theorem zip_lookup_precedence_witness :
    (lookupExact [⟨"root/a.wav", "d1"⟩, ⟨"b.wav", "d2"⟩] "a.wav" = none
      ∧ (([⟨"root/a.wav", "d1"⟩, ⟨"b.wav", "d2"⟩] : List ZipEntry).map ZipEntry.name).find?
          (fun n => jsEndsWith n "a.wav") = some "root/a.wav")
    ∧ findEntryInZip [⟨"root/a.wav", "d1"⟩, ⟨"b.wav", "d2"⟩] "a.wav"
        = (lookupExact [⟨"root/a.wav", "d1"⟩, ⟨"b.wav", "d2"⟩] "root/a.wav").map ZipEntry.data :=
  ⟨⟨by decide, by decide⟩,
   (zip_lookup_precedence [⟨"root/a.wav", "d1"⟩, ⟨"b.wav", "d2"⟩] "a.wav").2.1
     (by decide) "root/a.wav" (by decide)⟩

/-- C1: every failing invocation of addMusicUrl or addFromFile — non-2xx
response, transport error, or archive-extraction error — results in an
error (and every error result leaves the library list, persisted storage
and both pending buffers exactly as before the call: no partial entry, no
partial persistence). -/
theorem add_failure_is_atomic :
    (∀ (url : String) (env : LinkEnv) (s : LibState) (e : String) (t : LibState),
        addMusicUrl url env s = (.error e, t) →
        t.urls = s.urls ∧ t.storage = s.storage ∧
        t.pendingDeletes = s.pendingDeletes ∧ t.pendingClear = s.pendingClear)
    ∧ (∀ (url : String) (env : LinkEnv) (s : LibState),
        linkEnvFails env = true →
        ∃ e t, addMusicUrl url env s = (.error e, t))
    ∧ (∀ (env : FileEnv) (s : LibState) (e : String) (t : LibState),
        addAudioFile env s = (.error e, t) →
        t.urls = s.urls ∧ t.storage = s.storage ∧
        t.pendingDeletes = s.pendingDeletes ∧ t.pendingClear = s.pendingClear)
    ∧ (∀ (env : FileEnv) (s : LibState),
        fileEnvFails env = true →
        ∃ e t, addAudioFile env s = (.error e, t)) := by
  refine ⟨?_, ?_, ?_, ?_⟩
  · intro url env s e t h
    rcases hr : env.resp with v | ⟨stc, b⟩ | m
    · rcases hz : env.zipParse with m2 | entries
      · simp only [addMusicUrl, hr, hz, Prod.mk.injEq] at h
        obtain ⟨he, ht⟩ := h
        subst ht
        exact ⟨rfl, rfl, rfl, rfl⟩
      · simp [addMusicUrl, hr, hz] at h
    · simp only [addMusicUrl, hr, Prod.mk.injEq] at h
      obtain ⟨he, ht⟩ := h
      subst ht
      exact ⟨rfl, rfl, rfl, rfl⟩
    · simp only [addMusicUrl, hr, Prod.mk.injEq] at h
      obtain ⟨he, ht⟩ := h
      subst ht
      exact ⟨rfl, rfl, rfl, rfl⟩
  · intro url env s hf
    rcases hr : env.resp with v | ⟨stc, b⟩ | m
    · rcases hz : env.zipParse with m2 | entries
      · exact ⟨m2, { s with isLoading := false }, by simp only [addMusicUrl, hr, hz]⟩
      · simp [linkEnvFails, hr, hz] at hf
    · exact ⟨decorateDetail "/youtube" stc (errorDetail stc b),
        { s with isLoading := false }, by simp only [addMusicUrl, hr]⟩
    · exact ⟨m, { s with isLoading := false }, by simp only [addMusicUrl, hr]⟩
  · intro env s e t h
    rcases hr : env.resp with v | ⟨stc, b⟩ | m
    · rcases hz : env.zipParse with m2 | entries
      · simp only [addAudioFile, hr, hz, Prod.mk.injEq] at h
        obtain ⟨he, ht⟩ := h
        subst ht
        exact ⟨rfl, rfl, rfl, rfl⟩
      · simp [addAudioFile, hr, hz] at h
    · simp only [addAudioFile, hr, Prod.mk.injEq] at h
      obtain ⟨he, ht⟩ := h
      subst ht
      exact ⟨rfl, rfl, rfl, rfl⟩
    · simp only [addAudioFile, hr, Prod.mk.injEq] at h
      obtain ⟨he, ht⟩ := h
      subst ht
      exact ⟨rfl, rfl, rfl, rfl⟩
  · intro env s hf
    rcases hr : env.resp with v | ⟨stc, b⟩ | m
    · rcases hz : env.zipParse with m2 | entries
      · exact ⟨m2, { s with isLoading := false }, by simp only [addAudioFile, hr, hz]⟩
      · simp [fileEnvFails, hr, hz] at hf
    · exact ⟨decorateDetail "/upload" stc (errorDetail stc b),
        { s with isLoading := false }, by simp only [addAudioFile, hr]⟩
    · exact ⟨m, { s with isLoading := false }, by simp only [addAudioFile, hr]⟩

theorem add_failure_is_atomic_witness :
    addMusicUrl "u" linkFailEnv initState = (Except.error "boom", initState)
    ∧ (initState.urls = initState.urls ∧ initState.storage = initState.storage ∧
       initState.pendingDeletes = initState.pendingDeletes ∧
       initState.pendingClear = initState.pendingClear) :=
  ⟨rfl, add_failure_is_atomic.1 "u" linkFailEnv initState "boom" initState rfl⟩

/-!  Field behaviour of the save-on-change effect and of Map.set /
Map.get, shared by the two-phase delete proofs. -/

theorem saveEffect_urls (s : LibState) : (saveEffect s).urls = s.urls := by
  unfold saveEffect
  split <;> rfl

theorem saveEffect_pendingDeletes (s : LibState) :
    (saveEffect s).pendingDeletes = s.pendingDeletes := by
  unfold saveEffect
  split <;> rfl

theorem saveEffect_pendingClear (s : LibState) :
    (saveEffect s).pendingClear = s.pendingClear := by
  unfold saveEffect
  split <;> rfl

theorem saveEffect_storage_of_cons (s : LibState) (u : MusicUrl) (t : List MusicUrl)
    (h : s.urls = u :: t) : (saveEffect s).storage = some (sanitizeList s.urls) := by
  unfold saveEffect
  rw [h]
  simp

theorem find?_map_replace (m : List (String × MusicUrl)) (k : String) (v : MusicUrl)
    (h : m.any (fun p => p.1 == k) = true) :
    (m.map (fun p => if p.1 == k then (k, v) else p)).find? (fun p => p.1 == k)
      = some (k, v) := by
  induction m with
  | nil => simp at h
  | cons p t ih =>
    by_cases hp : (p.1 == k) = true
    · rw [List.map_cons, if_pos hp, List.find?_cons_of_pos]
      simp
    · have ht : t.any (fun p => p.1 == k) = true := by
        simpa [hp] using h
      rw [List.map_cons, if_neg hp, List.find?_cons_of_neg]
      · exact ih ht
      · simpa using hp

theorem mapGet_mapSet (m : List (String × MusicUrl)) (k : String) (v : MusicUrl) :
    mapGet (mapSet m k v) k = some v := by
  unfold mapGet mapSet
  by_cases h : m.any (fun p => p.1 == k) = true
  · rw [if_pos h, find?_map_replace m k v h]
    rfl
  · have hn : m.find? (fun p => p.1 == k) = none := by
      rw [List.find?_eq_none]
      intro p hp hpk
      exact h (List.any_eq_true.mpr ⟨p, hp, hpk⟩)
    rw [if_neg h, List.find?_append, hn]
    simp

/-- C2 (amended): scheduleRemove(id) followed by undoRemove(id) within
the grace window puts the removed entry back at the head of the list with
all fields intact (the rest of the list in its old order after it), and
persisted storage afterwards holds exactly that resulting list; when the
entry was already at the head (and storage held the sanitized list, as it
does after every store write), the pair of calls is a net no-op on
persisted storage. -/
theorem schedule_then_undo_restores_head (s : LibState) (i : String) (item : MusicUrl)
    (h : s.urls.find? (fun u => u.id == i) = some item) :
    (undoRemoveMusicUrl i (scheduleRemoveMusicUrl i s)).urls
        = item :: s.urls.filter (fun u => !(u.id == i))
    ∧ (undoRemoveMusicUrl i (scheduleRemoveMusicUrl i s)).storage
        = some (sanitizeList (item :: s.urls.filter (fun u => !(u.id == i))))
    ∧ (s.urls.head? = some item →
        (∀ u ∈ s.urls.tail, (u.id == i) = false) →
        s.storage = some (sanitizeList s.urls) →
        (undoRemoveMusicUrl i (scheduleRemoveMusicUrl i s)).storage = s.storage) := by
  have hsched : scheduleRemoveMusicUrl i s = saveEffect
      { s with urls := s.urls.filter (fun u => !(u.id == i))
               storage := if (s.urls.filter (fun u => !(u.id == i))).length > 0
                          then some (sanitizeList (s.urls.filter (fun u => !(u.id == i))))
                          else none
               pendingDeletes := mapSet s.pendingDeletes i item } := by
    unfold scheduleRemoveMusicUrl
    rw [h]
  have hpend : (scheduleRemoveMusicUrl i s).pendingDeletes = mapSet s.pendingDeletes i item := by
    rw [hsched, saveEffect_pendingDeletes]
  have hurls : (scheduleRemoveMusicUrl i s).urls = s.urls.filter (fun u => !(u.id == i)) := by
    rw [hsched, saveEffect_urls]
  have hget : mapGet (scheduleRemoveMusicUrl i s).pendingDeletes i = some item := by
    rw [hpend]
    exact mapGet_mapSet s.pendingDeletes i item
  have hundo : undoRemoveMusicUrl i (scheduleRemoveMusicUrl i s) = saveEffect
      { scheduleRemoveMusicUrl i s with
          urls := item :: (scheduleRemoveMusicUrl i s).urls
          storage := some (sanitizeList (item :: (scheduleRemoveMusicUrl i s).urls))
          pendingDeletes := mapDelete (scheduleRemoveMusicUrl i s).pendingDeletes i } := by
    unfold undoRemoveMusicUrl
    rw [hget]
  have hu : (undoRemoveMusicUrl i (scheduleRemoveMusicUrl i s)).urls
      = item :: s.urls.filter (fun u => !(u.id == i)) := by
    rw [hundo, saveEffect_urls, hurls]
  have hstore : (undoRemoveMusicUrl i (scheduleRemoveMusicUrl i s)).storage
      = some (sanitizeList (item :: s.urls.filter (fun u => !(u.id == i)))) := by
    rw [hundo, saveEffect_storage_of_cons _ item ((scheduleRemoveMusicUrl i s).urls) rfl]
    rw [hurls]
  refine ⟨hu, hstore, ?_⟩
  intro hhead htail hst
  have hid : item.id = i := by
    have h2 := List.find?_some h
    simpa using h2
  obtain ⟨tl, hs⟩ : ∃ tl, s.urls = item :: tl := by
    cases hu2 : s.urls with
    | nil => rw [hu2] at hhead; simp at hhead
    | cons a tl =>
      rw [hu2] at hhead
      simp only [List.head?_cons, Option.some.injEq] at hhead
      exact ⟨tl, by rw [hhead]⟩
  have hfilter : s.urls.filter (fun u => !(u.id == i)) = tl := by
    rw [hs, List.filter_cons]
    simp only [hid, beq_self_eq_true, Bool.not_true, Bool.false_eq_true, if_false]
    apply List.filter_eq_self.mpr
    intro u hut
    simp [htail u (by rw [hs]; exact hut)]
  rw [hstore, hfilter, ← hs, hst]

theorem schedule_then_undo_restores_head_witness :
    stateA.urls.find? (fun u => u.id == "a") = some entA
    ∧ ((undoRemoveMusicUrl "a" (scheduleRemoveMusicUrl "a" stateA)).urls
          = entA :: stateA.urls.filter (fun u => !(u.id == "a"))
      ∧ (undoRemoveMusicUrl "a" (scheduleRemoveMusicUrl "a" stateA)).storage
          = some (sanitizeList (entA :: stateA.urls.filter (fun u => !(u.id == "a"))))
      ∧ (stateA.urls.head? = some entA →
          (∀ u ∈ stateA.urls.tail, (u.id == "a") = false) →
          stateA.storage = some (sanitizeList stateA.urls) →
          (undoRemoveMusicUrl "a" (scheduleRemoveMusicUrl "a" stateA)).storage
            = stateA.storage)) :=
  ⟨by decide, schedule_then_undo_restores_head stateA "a" entA (by decide)⟩

/-- C2 (counterexample): in the two-entry state stateAB whose persisted
storage holds the sanitized list, scheduling removal of the second entry
"b" and undoing it within the grace window leaves persisted storage
different from what it was before the two calls (the entry moved to the
head), refuting the claimed net no-op on storage for entries not at the
head. -/
theorem schedule_then_undo_not_storage_noop :
    (undoRemoveMusicUrl "b" (scheduleRemoveMusicUrl "b" stateAB)).storage
      ≠ stateAB.storage := by decide

theorem sanitized_storage_some (xs : List MusicUrl) :
    SanitizedStorage (some (sanitizeList xs)) := by
  intro l hl e he fs hfs f hf
  obtain rfl : sanitizeList xs = l := by injection hl
  obtain ⟨u, hu, rfl⟩ := List.mem_map.mp he
  simp only [sanitizeEntry] at hfs
  cases hufiles : u.files with
  | none => rw [hufiles] at hfs; simp at hfs
  | some fl =>
    rw [hufiles] at hfs
    simp only [Option.map_some'] at hfs
    obtain rfl : fl.map (fun f => (⟨f.filename, none⟩ : PersistedFile)) = fs := by
      injection hfs
    obtain ⟨g, hg, rfl⟩ := List.mem_map.mp hf
    rfl

theorem sanitized_storage_none : SanitizedStorage none := by
  intro l hl
  cases hl

/-- C4: after every store operation, either persisted storage is exactly
what it was before the call, or what stands in persisted storage now is a
sanitized write: every entry's file records carry only the filename and
no blob handle is ever written to durable storage. -/
theorem storage_never_holds_blob_handles (s : LibState) (op : Op) :
    (step s op).storage = s.storage ∨ SanitizedStorage (step s op).storage := by
  cases op with
  | addLink url env =>
    rcases hr : env.resp with v | ⟨stc, b⟩ | m
    · rcases hz : env.zipParse with m2 | entries
      · left
        simp [step, addMusicUrl, hr, hz]
      · right
        simp only [step, addMusicUrl, hr, hz, saveEffect, List.length_cons]
        simp only [Nat.succ_pos, if_pos]
        exact sanitized_storage_some _
    · left
      simp [step, addMusicUrl, hr]
    · left
      simp [step, addMusicUrl, hr]
  | addFile env =>
    rcases hr : env.resp with v | ⟨stc, b⟩ | m
    · rcases hz : env.zipParse with m2 | entries
      · left
        simp [step, addAudioFile, hr, hz]
      · right
        simp only [step, addAudioFile, hr, hz, saveEffect, List.length_cons]
        simp only [Nat.succ_pos, if_pos]
        exact sanitized_storage_some _
    · left
      simp [step, addAudioFile, hr]
    · left
      simp [step, addAudioFile, hr]
  | remove i =>
    right
    simp only [step, removeMusicUrl, saveEffect]
    split
    · exact sanitized_storage_some _
    · exact sanitized_storage_none
  | schedRemove i =>
    cases hf : s.urls.find? (fun u => u.id == i) with
    | none =>
      left
      simp [step, scheduleRemoveMusicUrl, hf]
    | some found =>
      right
      simp only [step, scheduleRemoveMusicUrl, hf, saveEffect]
      split
      · exact sanitized_storage_some _
      · exact sanitized_storage_none
  | finalizeRemove i =>
    left
    simp only [step, finalizeRemoveMusicUrl]
    split <;> rfl
  | undoRemove i =>
    cases hg : mapGet s.pendingDeletes i with
    | none =>
      left
      simp [step, undoRemoveMusicUrl, hg]
    | some item =>
      right
      simp only [step, undoRemoveMusicUrl, hg, saveEffect, List.length_cons]
      simp only [Nat.succ_pos, if_pos]
      exact sanitized_storage_some _
  | updateTitle i t =>
    simp only [step, updateMusicTitle, saveEffect]
    split
    · right
      exact sanitized_storage_some _
    · left
      rfl
  | schedClear =>
    right
    simp only [step, clearLibrary, saveEffect]
    simp only [List.length_nil, Nat.lt_irrefl, if_false]
    exact sanitized_storage_none
  | finalizeClear =>
    left
    rfl
  | undoClear =>
    cases hp : s.pendingClear with
    | none =>
      left
      simp [step, undoClearLibrary, hp]
    | some items =>
      right
      simp only [step, undoClearLibrary, hp, saveEffect]
      split
      · exact sanitized_storage_some _
      · exact sanitized_storage_some _

/-- Removing the element delivered by find? and putting it in front is a
permutation, provided the projected keys are distinct. -/
theorem perm_find_filter {α β : Type} [BEq β] [LawfulBEq β] (f : α → β) (i : β) :
    ∀ (l : List α) (u : α), l.find? (fun x => f x == i) = some u →
      (l.map f).Nodup →
      List.Perm l (u :: l.filter (fun x => !(f x == i))) := by
  intro l
  induction l with
  | nil =>
    intro u h
    simp at h
  | cons x xs ih =>
    intro u h hnd
    rw [List.map_cons, List.nodup_cons] at hnd
    obtain ⟨hxm, hnd'⟩ := hnd
    by_cases hx : (f x == i) = true
    · rw [List.find?_cons_of_pos] at h
      · obtain rfl : x = u := by injection h
        have hfilt : (x :: xs).filter (fun y => !(f y == i)) = xs := by
          rw [List.filter_cons]
          simp only [hx, Bool.not_true, Bool.false_eq_true, if_false]
          apply List.filter_eq_self.mpr
          intro y hy
          have hne : f y ≠ i := by
            intro he
            exact hxm (by rw [eq_of_beq hx, ← he]; exact List.mem_map_of_mem f hy)
          simp [hne]
        rw [hfilt]
      · exact hx
    · rw [List.find?_cons_of_neg] at h
      · have hperm := ih u h hnd'
        have hfilt : (x :: xs).filter (fun y => !(f y == i))
            = x :: xs.filter (fun y => !(f y == i)) := by
          rw [List.filter_cons]
          simp [hx]
        rw [hfilt]
        exact (hperm.cons x).trans (List.Perm.swap u x _)
      · simpa using hx

theorem allIds_saveEffect (t : LibState) : allIds (saveEffect t) = allIds t := by
  unfold saveEffect
  split <;> rfl

theorem keysMatch_saveEffect (t : LibState) : KeysMatch (saveEffect t) ↔ KeysMatch t := by
  unfold saveEffect
  split <;> exact Iff.rfl

theorem idInv_saveEffect (t : LibState) (h : IdInv t) : IdInv (saveEffect t) := by
  refine ⟨(keysMatch_saveEffect t).mpr h.1, ?_⟩
  rw [allIds_saveEffect]
  exact h.2

/-- One operation preserves the id invariant when its submission
timestamps are fresh. -/
theorem idInv_step (s : LibState) (op : Op) (hinv : IdInv s)
    (hfresh : freshOp s op = true) : IdInv (step s op) := by
  obtain ⟨hk, hnd⟩ := hinv
  cases op with
  | addLink url env =>
    have hmem : toString env.now ∉ allIds s := by
      simpa [freshOp] using hfresh
    rcases hr : env.resp with v | ⟨stc, b⟩ | m
    · rcases hz : env.zipParse with m2 | entries
      · simp only [step, addMusicUrl, hr, hz]
        exact ⟨hk, hnd⟩
      · simp only [step, addMusicUrl, hr, hz]
        apply idInv_saveEffect
        refine ⟨hk, ?_⟩
        have hids : allIds
            { urls := ({ id := toString env.now, url := url
                         title := match truthyString
                             (match Option.map String.trim (truthyString v.1) with
                              | some t => some t
                              | none => match env.titleLookup with
                                | some h2 => Option.map String.trim (truthyString h2)
                                | none => none) with
                           | some t => t
                           | none => getMockTitle env.mockTitleIdx
                         thumbnail := "https://img.youtube.com/vi/" ++ extractVideoId url
                             ++ "/maxresdefault.jpg"
                         addedAt := env.now
                         layers := normalizeLayers env.rawLayers, isLocalFile := none
                         fileDataUrl := none, files := some (extractFiles entries)
                         cacheKey := none, processed := some true } : MusicUrl) :: s.urls
              storage := s.storage, pendingDeletes := s.pendingDeletes
              pendingClear := s.pendingClear, isLoading := false }
            = toString env.now :: allIds s := by
          simp [allIds, pendingClearItems]
        rw [hids]
        exact List.nodup_cons.mpr ⟨hmem, hnd⟩
    · simp only [step, addMusicUrl, hr]
      exact ⟨hk, hnd⟩
    · simp only [step, addMusicUrl, hr]
      exact ⟨hk, hnd⟩
  | addFile env =>
    have hmem : toString env.now ∉ allIds s := by
      simpa [freshOp] using hfresh
    rcases hr : env.resp with v | ⟨stc, b⟩ | m
    · rcases hz : env.zipParse with m2 | entries
      · simp only [step, addAudioFile, hr, hz]
        exact ⟨hk, hnd⟩
      · simp only [step, addAudioFile, hr, hz]
        apply idInv_saveEffect
        refine ⟨hk, ?_⟩
        have hids : allIds
            { urls := ({ id := toString env.now, url := "file:" ++ env.fileName
                         title := env.fileName, thumbnail := "", addedAt := env.now
                         layers := normalizeLayers env.rawLayers, isLocalFile := some true
                         fileDataUrl := some none, files := some (extractFiles entries)
                         cacheKey := truthyString v.1, processed := some true } : MusicUrl)
                  :: s.urls
              storage := s.storage, pendingDeletes := s.pendingDeletes
              pendingClear := s.pendingClear, isLoading := false }
            = toString env.now :: allIds s := by
          simp [allIds, pendingClearItems]
        rw [hids]
        exact List.nodup_cons.mpr ⟨hmem, hnd⟩
    · simp only [step, addAudioFile, hr]
      exact ⟨hk, hnd⟩
    · simp only [step, addAudioFile, hr]
      exact ⟨hk, hnd⟩
  | remove i =>
    simp only [step, removeMusicUrl]
    apply idInv_saveEffect
    refine ⟨hk, ?_⟩
    have hids : allIds
        { urls := s.urls.filter (fun u => !(u.id == i))
          storage := if (s.urls.filter (fun u => !(u.id == i))).length > 0
                     then some (sanitizeList (s.urls.filter (fun u => !(u.id == i)))) else none
          pendingDeletes := s.pendingDeletes, pendingClear := s.pendingClear
          isLoading := s.isLoading }
        = (s.urls.filter (fun u => !(u.id == i))).map MusicUrl.id
            ++ s.pendingDeletes.map (fun p => p.2.id)
            ++ (pendingClearItems s).map MusicUrl.id := by
      simp [allIds, pendingClearItems]
    rw [hids]
    apply hnd.sublist
    exact (((List.filter_sublist s.urls).map MusicUrl.id).append
      (List.Sublist.refl _)).append (List.Sublist.refl _)
  | schedRemove i =>
    cases hf : s.urls.find? (fun u => u.id == i) with
    | none =>
      simp only [step, scheduleRemoveMusicUrl, hf]
      exact ⟨hk, hnd⟩
    | some found =>
      have hidf : found.id = i := by
        have h2 := List.find?_some hf
        simpa using h2
      have hfm : found ∈ s.urls := List.mem_of_find?_eq_some hf
      have hiL1 : i ∈ s.urls.map MusicUrl.id := by
        rw [← hidf]
        exact List.mem_map_of_mem MusicUrl.id hfm
      have hnd2 := hnd
      unfold allIds at hnd2
      rw [List.nodup_append, List.nodup_append] at hnd2
      obtain ⟨⟨hn1, hn2, hdis12⟩, hn3, hdis⟩ := hnd2
      have hany : s.pendingDeletes.any (fun p => p.1 == i) = false := by
        cases hb : s.pendingDeletes.any (fun p => p.1 == i) with
        | false => rfl
        | true =>
          obtain ⟨p, hp, hpi⟩ := List.any_eq_true.mp hb
          have hpi2 : p.1 = i := by simpa using hpi
          have hiL2 : i ∈ s.pendingDeletes.map (fun p => p.2.id) := by
            rw [← hpi2, hk p hp]
            exact List.mem_map_of_mem _ hp
          exact absurd hiL2 (hdis12 hiL1)
      have hset : mapSet s.pendingDeletes i found = s.pendingDeletes ++ [(i, found)] := by
        unfold mapSet
        rw [if_neg (by simp [hany])]
      simp only [step, scheduleRemoveMusicUrl, hf]
      apply idInv_saveEffect
      constructor
      · intro p hp
        rw [hset] at hp
        rcases List.mem_append.mp hp with hp1 | hp2
        · exact hk p hp1
        · obtain rfl : p = (i, found) := by simpa using hp2
          exact hidf.symm
      · have hids : allIds
            { urls := s.urls.filter (fun u => !(u.id == i))
              storage := if (s.urls.filter (fun u => !(u.id == i))).length > 0
                         then some (sanitizeList (s.urls.filter (fun u => !(u.id == i))))
                         else none
              pendingDeletes := mapSet s.pendingDeletes i found
              pendingClear := s.pendingClear, isLoading := s.isLoading }
            = (s.urls.filter (fun u => !(u.id == i))).map MusicUrl.id
                ++ (s.pendingDeletes.map (fun p => p.2.id) ++ [i])
                ++ (pendingClearItems s).map MusicUrl.id := by
          rw [hset]
          simp [allIds, pendingClearItems, hidf]
        rw [hids]
        have hpermU : List.Perm (s.urls.map MusicUrl.id)
            (i :: (s.urls.filter (fun u => !(u.id == i))).map MusicUrl.id) := by
          have hp := perm_find_filter MusicUrl.id i s.urls found hf hn1
          have hp2 := hp.map MusicUrl.id
          rw [List.map_cons, hidf] at hp2
          exact hp2
        have hperm : List.Perm (allIds s)
            ((s.urls.filter (fun u => !(u.id == i))).map MusicUrl.id
              ++ (s.pendingDeletes.map (fun p => p.2.id) ++ [i])
              ++ (pendingClearItems s).map MusicUrl.id) := by
          unfold allIds
          apply List.Perm.append_right
          have h1 := hpermU.append_right (s.pendingDeletes.map (fun p => p.2.id))
          rw [List.cons_append] at h1
          have h2 := (List.perm_append_singleton i
            ((s.urls.filter (fun u => !(u.id == i))).map MusicUrl.id
              ++ s.pendingDeletes.map (fun p => p.2.id))).symm
          have h3 := h1.trans h2
          rw [List.append_assoc] at h3
          exact h3
        exact hperm.nodup hnd
  | finalizeRemove i =>
    cases hg : mapGet s.pendingDeletes i with
    | none =>
      simp only [step, finalizeRemoveMusicUrl, hg]
      exact ⟨hk, hnd⟩
    | some item =>
      simp only [step, finalizeRemoveMusicUrl, hg]
      constructor
      · intro p hp
        exact hk p (List.mem_of_mem_filter hp)
      · have hids : allIds
            { urls := s.urls, storage := s.storage
              pendingDeletes := mapDelete s.pendingDeletes i
              pendingClear := s.pendingClear, isLoading := s.isLoading }
            = s.urls.map MusicUrl.id
                ++ (mapDelete s.pendingDeletes i).map (fun p => p.2.id)
                ++ (pendingClearItems s).map MusicUrl.id := by
          simp [allIds, pendingClearItems]
        rw [hids]
        apply hnd.sublist
        exact ((List.Sublist.refl _).append
          ((List.filter_sublist s.pendingDeletes).map _)).append (List.Sublist.refl _)
  | undoRemove i =>
    cases hg : mapGet s.pendingDeletes i with
    | none =>
      simp only [step, undoRemoveMusicUrl, hg]
      exact ⟨hk, hnd⟩
    | some item =>
      have hq : ∃ q, s.pendingDeletes.find? (fun p => p.1 == i) = some q ∧ q.2 = item := by
        unfold mapGet at hg
        cases hq2 : s.pendingDeletes.find? (fun p => p.1 == i) with
        | none => rw [hq2] at hg; simp at hg
        | some q =>
          rw [hq2] at hg
          simp only [Option.map_some', Option.some.injEq] at hg
          exact ⟨q, rfl, hg⟩
      obtain ⟨q, hqf, hq2⟩ := hq
      have hqm : q ∈ s.pendingDeletes := List.mem_of_find?_eq_some hqf
      have hq1 : q.1 = i := by
        have h2 := List.find?_some hqf
        simpa using h2
      have hitem : item.id = i := by
        rw [← hq2, ← hk q hqm, hq1]
      have hnd2 := hnd
      unfold allIds at hnd2
      rw [List.nodup_append, List.nodup_append] at hnd2
      obtain ⟨⟨hn1, hn2, hdis12⟩, hn3, hdis⟩ := hnd2
      have hkeys : s.pendingDeletes.map (fun p => p.1)
          = s.pendingDeletes.map (fun p => p.2.id) :=
        List.map_congr_left (fun p hp => hk p hp)
      have hpermPd : List.Perm (s.pendingDeletes.map (fun p => p.2.id))
          (i :: (s.pendingDeletes.filter (fun p => !(p.1 == i))).map (fun p => p.2.id)) := by
        have hp := perm_find_filter Prod.fst i s.pendingDeletes q hqf (by rw [hkeys]; exact hn2)
        have hp2 := hp.map (fun p => p.2.id)
        rw [List.map_cons] at hp2
        rw [hq2, hitem] at hp2
        exact hp2
      simp only [step, undoRemoveMusicUrl, hg]
      apply idInv_saveEffect
      constructor
      · intro p hp
        exact hk p (List.mem_of_mem_filter hp)
      · have hids : allIds
            { urls := item :: s.urls
              storage := some (sanitizeList (item :: s.urls))
              pendingDeletes := mapDelete s.pendingDeletes i
              pendingClear := s.pendingClear, isLoading := s.isLoading }
            = (i :: s.urls.map MusicUrl.id)
                ++ (s.pendingDeletes.filter (fun p => !(p.1 == i))).map (fun p => p.2.id)
                ++ (pendingClearItems s).map MusicUrl.id := by
          simp [allIds, pendingClearItems, mapDelete, hitem]
        rw [hids]
        have hperm : List.Perm (allIds s)
            ((i :: s.urls.map MusicUrl.id)
              ++ (s.pendingDeletes.filter (fun p => !(p.1 == i))).map (fun p => p.2.id)
              ++ (pendingClearItems s).map MusicUrl.id) := by
          unfold allIds
          apply List.Perm.append_right
          have h1 := hpermPd.append_left (s.urls.map MusicUrl.id)
          have h2 := h1.trans List.perm_middle
          rw [← List.cons_append] at h2
          exact h2
        exact hperm.nodup hnd
  | updateTitle i t =>
    simp only [step, updateMusicTitle]
    apply idInv_saveEffect
    refine ⟨hk, ?_⟩
    have hids : allIds
        { urls := s.urls.map (fun u => if u.id == i then { u with title := t } else u)
          storage := s.storage, pendingDeletes := s.pendingDeletes
          pendingClear := s.pendingClear, isLoading := s.isLoading }
        = allIds s := by
      unfold allIds
      simp only [pendingClearItems, List.map_map]
      have : (s.urls.map (fun u => if u.id == i then { u with title := t } else u)).map
          MusicUrl.id = s.urls.map MusicUrl.id := by
        rw [List.map_map]
        apply List.map_congr_left
        intro u hu
        by_cases hui : u.id = i <;> simp [hui]
      rw [List.map_map] at this
      rw [this]
    rw [hids]
    exact hnd
  | schedClear =>
    simp only [step, clearLibrary, saveEffect]
    simp only [List.length_nil, Nat.lt_irrefl, if_false]
    constructor
    · exact hk
    · have hids : allIds
          { urls := ([] : List MusicUrl), storage := none
            pendingDeletes := s.pendingDeletes, pendingClear := some s.urls
            isLoading := s.isLoading }
          = s.pendingDeletes.map (fun p => p.2.id) ++ s.urls.map MusicUrl.id := by
        simp [allIds, pendingClearItems]
      rw [hids]
      have h12 : (s.urls.map MusicUrl.id ++ s.pendingDeletes.map (fun p => p.2.id)).Nodup := by
        apply hnd.sublist
        exact List.sublist_append_left _ _
      exact List.perm_append_comm.nodup h12
  | finalizeClear =>
    constructor
    · exact hk
    · have hids : allIds (finalizeClearLibrary s)
          = s.urls.map MusicUrl.id ++ s.pendingDeletes.map (fun p => p.2.id) ++ [] := by
        simp [allIds, pendingClearItems, finalizeClearLibrary]
      show (allIds (finalizeClearLibrary s)).Nodup
      rw [hids, List.append_nil]
      apply hnd.sublist
      exact List.sublist_append_left _ _
  | undoClear =>
    cases hp : s.pendingClear with
    | none =>
      simp only [step, undoClearLibrary, hp]
      exact ⟨hk, hnd⟩
    | some items =>
      simp only [step, undoClearLibrary, hp]
      apply idInv_saveEffect
      constructor
      · exact hk
      · have hids : allIds
            { urls := items, storage := some (sanitizeList items)
              pendingDeletes := s.pendingDeletes, pendingClear := none
              isLoading := s.isLoading }
            = items.map MusicUrl.id ++ s.pendingDeletes.map (fun p => p.2.id) ++ [] := by
          simp [allIds, pendingClearItems]
        rw [hids, List.append_nil]
        have h23 : (s.pendingDeletes.map (fun p => p.2.id)
            ++ (pendingClearItems s).map MusicUrl.id).Nodup := by
          apply hnd.sublist
          unfold allIds
          rw [List.append_assoc]
          exact List.sublist_append_right _ _
        have h23b : (s.pendingDeletes.map (fun p => p.2.id) ++ items.map MusicUrl.id).Nodup := by
          rw [pendingClearItems, hp] at h23
          exact h23
        exact List.perm_append_comm.nodup h23b

theorem idInv_run (s : LibState) (ops : List Op) (hinv : IdInv s)
    (hrun : freshRun s ops = true) : IdInv (run s ops) := by
  induction ops generalizing s with
  | nil => exact hinv
  | cons op rest ih =>
    simp only [freshRun, Bool.and_eq_true] at hrun
    exact ih (step s op) (idInv_step s op hinv hrun.1) hrun.2

/-- C5 (amended): along any operation sequence in which every submission
is stamped with a millisecond timestamp whose string is not an id the
store already holds (visible list, pending deletes, or pending clear),
the library list never contains two entries with the same id.  The
unconditional claim fails because Date.now() can return the same
millisecond twice. -/
theorem ids_unique_under_fresh_clock (s : LibState) (ops : List Op)
    (h1 : IdInv s) (h2 : freshRun s ops = true) :
    ((run s ops).urls.map MusicUrl.id).Nodup := by
  have h3 := (idInv_run s ops h1 h2).2
  unfold allIds at h3
  exact h3.sublist ((List.sublist_append_left _ _).trans (List.sublist_append_left _ _))

theorem ids_unique_under_fresh_clock_witness :
    (IdInv initState
      ∧ freshRun initState [Op.addLink "u" envAdd0, Op.addLink "u" envAdd1] = true)
    ∧ ((run initState [Op.addLink "u" envAdd0, Op.addLink "u" envAdd1]).urls.map
        MusicUrl.id).Nodup :=
  ⟨⟨⟨by unfold KeysMatch; decide, by decide⟩, by decide⟩,
   ids_unique_under_fresh_clock initState [Op.addLink "u" envAdd0, Op.addLink "u" envAdd1]
     ⟨by unfold KeysMatch; decide, by decide⟩ (by decide)⟩

/-- C5 (counterexample): two successful submissions stamped with the same
millisecond (Date.now() returning 0 twice) produce two entries that both
carry id "0" — the resulting library list has duplicate ids, refuting the
unconditional uniqueness claim. -/
theorem ids_collide_same_millisecond :
    ¬ (((run initState [Op.addLink "u" envAdd0, Op.addLink "u" envAdd0]).urls.map
        MusicUrl.id).Nodup) := by decide

theorem jsOrZero_eq (x : Int) : jsOrZero x = x := by
  unfold jsOrZero
  split
  · simp_all
  · rfl

theorem sumVolumes_eq (ls : List MusicLayer) :
    sumVolumes ls = (ls.map (fun l => l.volume)).sum := by
  unfold sumVolumes
  have hfun : (fun (acc : Int) (l : MusicLayer) => acc + jsOrZero l.volume)
      = (fun acc l => acc + l.volume) := by
    funext acc l
    rw [jsOrZero_eq]
  rw [hfun]
  suffices h : ∀ (a : Int),
      ls.foldl (fun acc l => acc + l.volume) a
        = a + (ls.map (fun l => l.volume)).sum by
    simpa using h 0
  induction ls with
  | nil =>
    intro a
    simp
  | cons x t ih =>
    intro a
    simp [ih, add_assoc]

/-- The code's normalizeLayers computes, entry by entry, exactly the spec
formula with the sum of raw volumes as denominator. -/
theorem normalizeLayers_formula (ls : List MusicLayer) :
    (normalizeLayers ls).map (fun l => l.volume)
      = ls.map (fun l => specNormalize l.volume (sumVolumes ls)) := by
  unfold normalizeLayers
  rw [List.map_map]
  apply List.map_congr_left
  intro l hl
  simp only [Function.comp, jsOrZero_eq, specNormalize]
  congr 1
  by_cases h : sumVolumes ls = 0 <;> simp [h] <;> ring

theorem jsRound_le (x : Rat) : (jsRound x : Rat) ≤ x + 1 / 2 := by
  unfold jsRound
  exact Int.floor_le _

theorem le_jsRound (x : Rat) : x - 1 / 2 ≤ (jsRound x : Rat) := by
  unfold jsRound
  have h := Int.sub_one_lt_floor (x + 1 / 2)
  linarith

theorem cast_map_volume_sum (ls : List MusicLayer) :
    (ls.map (fun l => ((l.volume : Int) : Rat))).sum
      = (((ls.map (fun l => l.volume)).sum : Int) : Rat) := by
  induction ls with
  | nil => simp
  | cons x t ih => simp [ih]

theorem sum_map_jsRound_bounds (qs : List Rat) :
    qs.sum - qs.length * (1 / 2 : Rat) ≤ (((qs.map jsRound).sum : Int) : Rat)
    ∧ (((qs.map jsRound).sum : Int) : Rat) ≤ qs.sum + qs.length * (1 / 2 : Rat) := by
  induction qs with
  | nil => simp
  | cons q t ih =>
    obtain ⟨ih1, ih2⟩ := ih
    have h1 := jsRound_le q
    have h2 := le_jsRound q
    simp only [List.map_cons, List.sum_cons, List.length_cons]
    push_cast at ih1 ih2 ⊢
    constructor <;> linarith

theorem sum_lower_bound (L : List Int) (c : Int) (h : ∀ x ∈ L, c ≤ x) :
    c * (L.length : Int) ≤ L.sum := by
  induction L with
  | nil => simp
  | cons x t ih =>
    have hx := h x (List.mem_cons_self x t)
    have ht2 := ih (fun y hy => h y (List.mem_cons_of_mem x hy))
    simp only [List.sum_cons, List.length_cons]
    push_cast
    nlinarith

/-- C7: layer-volume normalization computes
normalized_i = round(100 * raw_i / sum(raw)) for each layer (sum treated
as 1 when all raw volumes are 0), and for layer lists as generated for a
created entry (3 to 5 layers, raw volumes 60 to 100) the normalized
volumes sum to 100 up to rounding tolerance (within 98..102, since each
of at most 5 layers rounds by at most one half). -/
theorem layer_volume_normalization (ls : List MusicLayer) :
    ((normalizeLayers ls).map (fun l => l.volume)
        = ls.map (fun l => specNormalize l.volume (sumVolumes ls)))
    ∧ (3 ≤ ls.length → ls.length ≤ 5 →
        (∀ l ∈ ls, 60 ≤ l.volume ∧ l.volume ≤ 100) →
        98 ≤ ((normalizeLayers ls).map (fun l => l.volume)).sum
        ∧ ((normalizeLayers ls).map (fun l => l.volume)).sum ≤ 102) := by
  refine ⟨normalizeLayers_formula ls, ?_⟩
  intro h3 h5 hv
  have htsum : sumVolumes ls = (ls.map (fun l => l.volume)).sum := sumVolumes_eq ls
  have htpos : 0 < sumVolumes ls := by
    have hlow := sum_lower_bound (ls.map (fun l => l.volume)) 60 (by
      intro x hx
      obtain ⟨l, hl, rfl⟩ := List.mem_map.mp hx
      exact (hv l hl).1)
    rw [← htsum] at hlow
    have hlen : (3 : Int) ≤ (ls.length : Int) := by exact_mod_cast h3
    simp only [List.length_map] at hlow
    nlinarith
  have htne : sumVolumes ls ≠ 0 := ne_of_gt htpos
  have hform : (normalizeLayers ls).map (fun l => l.volume)
      = (ls.map (fun l => (100 * (l.volume : Rat)) / ((sumVolumes ls : Int) : Rat))).map
          jsRound := by
    rw [normalizeLayers_formula, List.map_map]
    apply List.map_congr_left
    intro l hl
    simp only [Function.comp, specNormalize, if_neg htne]
  have hqsum : (ls.map (fun l => (100 * (l.volume : Rat)) / ((sumVolumes ls : Int) : Rat))).sum
      = 100 := by
    have hrw : ls.map (fun l => (100 * (l.volume : Rat)) / ((sumVolumes ls : Int) : Rat))
        = ls.map (fun l =>
            ((100 : Rat) / ((sumVolumes ls : Int) : Rat)) * ((l.volume : Int) : Rat)) := by
      apply List.map_congr_left
      intro l hl
      ring
    rw [hrw, List.sum_map_mul_left, cast_map_volume_sum, ← htsum]
    have hne2 : ((sumVolumes ls : Int) : Rat) ≠ 0 := by exact_mod_cast htne
    field_simp
  have hbounds := sum_map_jsRound_bounds
    (ls.map (fun l => (100 * (l.volume : Rat)) / ((sumVolumes ls : Int) : Rat)))
  rw [hqsum, List.length_map] at hbounds
  obtain ⟨hlo, hhi⟩ := hbounds
  rw [← hform] at hlo hhi
  have hlenlo : (3 : Rat) ≤ (ls.length : Rat) := by exact_mod_cast h3
  have hlenhi : (ls.length : Rat) ≤ 5 := by exact_mod_cast h5
  constructor
  · have h97 : (97 : Rat) < (((normalizeLayers ls).map (fun l => l.volume)).sum : Int) := by
      linarith
    have h97b : (97 : Int) < ((normalizeLayers ls).map (fun l => l.volume)).sum := by
      exact_mod_cast h97
    omega
  · have h103 : ((((normalizeLayers ls).map (fun l => l.volume)).sum : Int) : Rat) < 103 := by
      linarith
    have h103b : ((normalizeLayers ls).map (fun l => l.volume)).sum < (103 : Int) := by
      exact_mod_cast h103
    omega

theorem layer_volume_normalization_witness :
    (3 ≤ demoLayers.length ∧ demoLayers.length ≤ 5
      ∧ (∀ l ∈ demoLayers, 60 ≤ l.volume ∧ l.volume ≤ 100))
    ∧ (98 ≤ ((normalizeLayers demoLayers).map (fun l => l.volume)).sum
      ∧ ((normalizeLayers demoLayers).map (fun l => l.volume)).sum ≤ 102) :=
  ⟨⟨by decide, by decide, by decide⟩,
   (layer_volume_normalization demoLayers).2 (by decide) (by decide) (by decide)⟩

end Claims
